import Mathlib

/-!
Verification of the Quark front end: a shallow embedding of the lexical
scanner (src/quark/core/scanner.py) and of the AST plus lazy evaluator
(src/quark/core/ast.py), with theorems settling the specified properties.

Conventions of the embedding:
* Python dicts from identifiers to expressions become ordered association
  lists with update-in-place-or-append semantics (`dictInsert`).
* In-place mutation of the dict and of the pending-argument list becomes
  explicit state passing: `execute` returns the result together with the
  final state of the dict object and of the list object it received.
* Python recursion (which is unbounded and can hit the host recursion
  limit) becomes an explicit fuel parameter; exhausted fuel returns a
  distinguished recursion error.
* Python exceptions become `Except` errors: `notImplementedError` models
  NotImplementedError (the UnsupportedOperation of the spec), and
  `typeError` / `attributeError` / `keyError` the corresponding built-ins.
-/

namespace Quark

/-- Lexical categories of tokens. The enumeration lives in
quark/core/token_.py, which is not part of the analysed sources; the
members are modelled from the spec (literal kinds, operators by size,
keywords, and a SKIP marker) and from the names used by ast.py and
scanner.py. -/
inductive TokenTypes where
  | INTEGER
  | REAL
  | COMPLEX
  | STRING
  | BOOLEAN
  | ID
  | SKIP
  | PERIOD
  | PLUS
  | MINUS
  | STAR
  | SLASH
  | DOUBLE_SLASH
  | DOUBLE_STAR
  | PERCENT
  | SLASH_PERCENT
  | GREATER
  | LESS
  | GREATER_EQUAL
  | LESS_EQUAL
  | DOUBLE_EQUAL
  | EXCLAMATION_EQUAL
  | AND
  | OR
  | XOR
  | NOT
  | HEAD
  | TAIL
  | NIL
  | LPAREN
  | RPAREN
  | LBRACKET
  | RBRACKET
  | COMMA
  | EQUAL
  | BACKSLASH
  | KW_LET
  | KW_IN
  | KW_IF
  | KW_THEN
  | KW_ELSE
  | KW_IMPORT
  | KW_EXPORT
  deriving DecidableEq

/-- Token record: kind, lexeme and (column, line) of its first consumed
position, mirroring quark.core.token_.Token as used by the scanner. -/
structure Token where
  type : TokenTypes
  raw : String
  pos : Nat × Nat
  deriving DecidableEq

/-- Runtime value objects. Modelled from the spec: the classes
IntegerObject, RealObject, ComplexObject, StringObject and BooleanObject
live in quark/core/runtime/, which is not part of the analysed sources.
Each constructor takes the raw lexeme text; the integer constructor is
modelled as decimal parsing, the boolean one as a truth value, and the
remaining ones keep the raw text uninterpreted since no claim exercises
their arithmetic. Python bool results of logical operators are modelled
by the same BooleanObject constructor. -/
inductive Value where
  | IntegerObject : Int → Value
  | RealObject : String → Value
  | ComplexObject : String → Value
  | StringObject : String → Value
  | BooleanObject : Bool → Value
  deriving DecidableEq

/-- Abstract syntax of expressions, mirroring the Expression subclasses of
ast.py. LetExpression carries the raw identifier list of its IdList and
the expression list of its ExpressionList; the body of a LetExpression is
modelled as always present (the None body of top-level assignment
contexts is not exercised by any claim). InternalName is the fresh-name
variant (its process-wide counter is modelled by carrying the produced
identifier). -/
inductive Expr where
  | LetExpression : List String → List Expr → Expr → Expr
  | LambdaExpression : String → Expr → Expr
  | ConditionalExpression : Expr → Expr → Option Expr → Expr
  | ApplicationExpression : Expr → Expr → Expr
  | BinaryExpression : Expr → Token → Expr → Expr
  | UnaryExpression : Token → Expr → Expr
  | ListExpression : List Expr → Expr
  | AtomExpression : String → TokenTypes → Expr
  | ExpressionList : List Expr → Expr
  | InternalName : String → Expr

/-- Statement variants that are not expressions: import, export and
assignment. Import and export carry their package identifiers and
optional alias identifiers as raw strings. -/
inductive Stmt where
  | ImportStatement : List String → Option (List String) → Stmt
  | ExportStatement : List String → Option (List String) → Stmt
  | AssignmentStatement : List String → List Expr → Stmt

/-- Python set(s) of a string iterates the string, producing the set of
its one-character substrings. LambdaExpression applies set() directly to
its binding identifier string, so this is the set actually subtracted and
intersected there. -/
def charSet (s : String) : Finset String :=
  (s.toList.map String.singleton).toFinset

/-- Python truthiness of an expression node: ExpressionList subclasses
list, so an empty one is falsy; every other node is truthy. Used by the
ConditionalExpression queries, which test `if self.alternative`. -/
def exprTruthy : Expr → Bool
  | .ExpressionList es => !es.isEmpty
  | _ => true

/-- Free-variable set of an AtomExpression: the raw lexeme if the token
kind is ID, empty otherwise. AtomExpression.variables returns the same
set (the source defines variables as self.free_variables there). -/
def atomFreeVariables (raw : String) (ty : TokenTypes) : Finset String :=
  if ty = TokenTypes.ID then {raw} else ∅

mutual
/-- The variables query of each Expression subclass (named all_variables
here because `variables` is reserved): recursive union over children;
LambdaExpression returns the variables of its body; AtomExpression and
InternalName return their free-variable set. -/
def all_variables : Expr → Finset String
  | .LetExpression _ inits body => list_all_variables inits ∪ all_variables body
  | .LambdaExpression _ body => all_variables body
  | .ConditionalExpression c t none => all_variables c ∪ all_variables t
  | .ConditionalExpression c t (some alt) =>
      if exprTruthy alt then all_variables c ∪ all_variables t ∪ all_variables alt
      else all_variables c ∪ all_variables t
  | .ApplicationExpression f a => all_variables f ∪ all_variables a
  | .BinaryExpression l _ r => all_variables l ∪ all_variables r
  | .UnaryExpression _ e => all_variables e
  | .ListExpression items => list_all_variables items
  | .AtomExpression raw ty => atomFreeVariables raw ty
  | .ExpressionList es => list_all_variables es
  | .InternalName i => {i}

/-- Union of the variables of the elements of an ExpressionList or of a
Python list of expressions. -/
def list_all_variables : List Expr → Finset String
  | [] => ∅
  | e :: es => all_variables e ∪ list_all_variables es
end

mutual
/-- The free_variables query: LetExpression subtracts the set of its raw
binding identifiers from the free set of its body and unions in the free
set of its initialisers; LambdaExpression subtracts set(binding_identifier),
which is the set of one-character substrings of the identifier string. -/
def free_variables : Expr → Finset String
  | .LetExpression ids inits body =>
      (free_variables body \ ids.toFinset) ∪ list_free_variables inits
  | .LambdaExpression id_ body => free_variables body \ charSet id_
  | .ConditionalExpression c t none => free_variables c ∪ free_variables t
  | .ConditionalExpression c t (some alt) =>
      if exprTruthy alt then free_variables c ∪ free_variables t ∪ free_variables alt
      else free_variables c ∪ free_variables t
  | .ApplicationExpression f a => free_variables f ∪ free_variables a
  | .BinaryExpression l _ r => free_variables l ∪ free_variables r
  | .UnaryExpression _ e => free_variables e
  | .ListExpression items => list_free_variables items
  | .AtomExpression raw ty => atomFreeVariables raw ty
  | .ExpressionList es => list_free_variables es
  | .InternalName i => {i}

/-- Union of the free variables of the elements of a list of expressions. -/
def list_free_variables : List Expr → Finset String
  | [] => ∅
  | e :: es => free_variables e ∪ list_free_variables es
end

mutual
/-- The bound_variables query: LetExpression intersects the variables of
its body with its raw binding identifiers and unions in the bound set of
its initialisers; LambdaExpression intersects set(binding_identifier)
with the bound set of its body (exactly as the source computes it). -/
def bound_variables : Expr → Finset String
  | .LetExpression ids inits body =>
      (all_variables body ∩ ids.toFinset) ∪ list_bound_variables inits
  | .LambdaExpression id_ body => charSet id_ ∩ bound_variables body
  | .ConditionalExpression c t none => bound_variables c ∪ bound_variables t
  | .ConditionalExpression c t (some alt) =>
      if exprTruthy alt then bound_variables c ∪ bound_variables t ∪ bound_variables alt
      else bound_variables c ∪ bound_variables t
  | .ApplicationExpression f a => bound_variables f ∪ bound_variables a
  | .BinaryExpression l _ r => bound_variables l ∪ bound_variables r
  | .UnaryExpression _ e => bound_variables e
  | .ListExpression items => list_bound_variables items
  | .AtomExpression _ _ => ∅
  | .ExpressionList es => list_bound_variables es
  | .InternalName _ => ∅

/-- Union of the bound variables of the elements of a list of expressions. -/
def list_bound_variables : List Expr → Finset String
  | [] => ∅
  | e :: es => bound_variables e ∪ list_bound_variables es
end

/-- First component of an ExecutionResult: LiteralType, NoneType, one of
the concrete node classes, or the abstract base class Expression (which
UnaryExpression.execute uses to tag its stuck results). -/
inductive RType where
  | literal
  | noneType
  | expressionBase
  | letExpression
  | lambdaExpression
  | conditionalExpression
  | applicationExpression
  | binaryExpression
  | unaryExpression
  | atomExpression
  | listExpression
  | expressionList
  | internalName
  deriving DecidableEq

/-- Second component of an ExecutionResult: a runtime value object, an
AST node (for stuck results), or the Python constant None. externOp is a
symbolic result standing for a call into an operator contract of the
external runtime value classes that no claim exercises (their modules
are not part of the analysed sources). -/
inductive RVal where
  | value : Value → RVal
  | node : Expr → RVal
  | pyNone : RVal
  | externOp : TokenTypes → List RVal → RVal

/-- The ExecutionResult namedtuple of ast.py: an (execution result type,
value) pair. -/
structure ExecutionResult where
  type : RType
  val : RVal

/-- Python exceptions surfacing from the evaluator. recursionError models
exhaustion of the host recursion limit (the fuel of `execute`). -/
inductive PyError where
  | notImplementedError
  | typeError
  | attributeError
  | keyError
  | recursionError
  deriving DecidableEq

/-- Membership test of the module-level expression_types set of ast.py:
exactly the seven concrete classes listed there; the abstract Expression
tag and the literal, none, list-expression, expression-list and
internal-name tags are not members. -/
def is_expression_type : RType → Bool
  | .letExpression | .lambdaExpression | .conditionalExpression
  | .applicationExpression | .binaryExpression | .unaryExpression
  | .atomExpression => true
  | _ => false

/-- Environments (closures): ordered association lists modelling Python
dicts from identifier to unevaluated expression node. -/
def Env := List (String × Expr)

/-- Dict lookup by key. -/
def dictLookup : Env → String → Option Expr
  | [], _ => none
  | (k, v) :: rest, name => if k = name then some v else dictLookup rest name

/-- Dict store: replaces the value at an existing key in place, otherwise
appends, preserving Python dict insertion order. -/
def dictInsert : Env → String → Expr → Env
  | [], name, v => [(name, v)]
  | (k, w) :: rest, name, v =>
      if k = name then (k, v) :: rest else (k, w) :: dictInsert rest name v

/-- Key set of the dict, the closure.keys() view used by closedness
checks. -/
def envKeys (env : Env) : Finset String :=
  (env.map Prod.fst).toFinset

/-- Decimal parse of an integer literal lexeme, modelling the integer
runtime constructor applied to the raw text. -/
def strToInt (s : String) : Int :=
  s.toList.foldl (fun a c => a * 10 + ((c.toNat : Int) - 48)) 0

/-- The binding rule shared verbatim by AssignmentStatement.execute,
LetExpression.execute and LambdaExpression.execute: if the name is
already a key of the dict and occurs among the free variables of the new
expression, store Application(Lambda(name, expression), previous value);
otherwise store the expression directly. -/
def bindRule (closure : Env) (name : String) (expr : Expr) : Env :=
  match dictLookup closure name with
  | some prev =>
      if name ∈ free_variables expr then
        dictInsert closure name
          (.ApplicationExpression (.LambdaExpression name expr) prev)
      else dictInsert closure name expr
  | none => dictInsert closure name expr

/-- Key set of the _token_binary_operation_mapping dict of ast.py. -/
def binaryMappingContains : TokenTypes → Bool
  | .PLUS | .MINUS | .STAR | .SLASH | .DOUBLE_SLASH | .DOUBLE_STAR
  | .PERCENT | .SLASH_PERCENT | .GREATER | .LESS | .GREATER_EQUAL
  | .LESS_EQUAL | .DOUBLE_EQUAL | .EXCLAMATION_EQUAL | .AND | .OR
  | .XOR => true
  | _ => false

/-- Leaf operator semantics on two runtime value objects. The integer
cases are modelled from the spec contract of the external value classes
(standard arithmetic and comparisons); combinations no claim exercises
stay symbolic via externOp. The SLASH_PERCENT entry is handled before
this function is reached. -/
def binaryOpOnValues (t : TokenTypes) (x y : Value) : RVal :=
  match t, x, y with
  | .PLUS, .IntegerObject a, .IntegerObject b => .value (.IntegerObject (a + b))
  | .MINUS, .IntegerObject a, .IntegerObject b => .value (.IntegerObject (a - b))
  | .STAR, .IntegerObject a, .IntegerObject b => .value (.IntegerObject (a * b))
  | .GREATER, .IntegerObject a, .IntegerObject b => .value (.BooleanObject (a > b))
  | .LESS, .IntegerObject a, .IntegerObject b => .value (.BooleanObject (a < b))
  | .GREATER_EQUAL, .IntegerObject a, .IntegerObject b => .value (.BooleanObject (a ≥ b))
  | .LESS_EQUAL, .IntegerObject a, .IntegerObject b => .value (.BooleanObject (a ≤ b))
  | .DOUBLE_EQUAL, .IntegerObject a, .IntegerObject b => .value (.BooleanObject (a = b))
  | .EXCLAMATION_EQUAL, .IntegerObject a, .IntegerObject b => .value (.BooleanObject (a ≠ b))
  | _, _, _ => .externOp t [.value x, .value y]

/-- Application of the function stored in _token_binary_operation_mapping
to the val fields of the two operand results. The SLASH_PERCENT lambda
ignores its arguments and returns Python None. Arithmetic or ordering on
a non-value operand (a stuck AST node or None) raises TypeError in
Python; default object equality and the boolean coercions of the logical
operators stay symbolic. A token kind outside the mapping raises
KeyError before the lambda is applied. -/
def binaryOpApply (t : TokenTypes) (x y : RVal) : Except PyError RVal :=
  if binaryMappingContains t then
    if t = .SLASH_PERCENT then .ok .pyNone
    else
      match x, y with
      | .value a, .value b => .ok (binaryOpOnValues t a b)
      | _, _ =>
        match t with
        | .DOUBLE_EQUAL | .EXCLAMATION_EQUAL | .AND | .OR | .XOR =>
            .ok (.externOp t [x, y])
        | _ => .error .typeError
  else .error .keyError

/-- Key set of the _token_unary_operation_mapping dict of ast.py. -/
def unaryMappingContains : TokenTypes → Bool
  | .MINUS | .HEAD | .TAIL | .NIL | .NOT => true
  | _ => false

/-- Application of the function stored in _token_unary_operation_mapping
to the WHOLE ExecutionResult namedtuple, exactly as
UnaryExpression.execute does (it passes result, not result.val): negation
of a namedtuple raises TypeError; the head, tail and is_nil attribute
accesses raise AttributeError; `not` of a two-field namedtuple is always
False since non-empty tuples are truthy. A token kind outside the
mapping raises KeyError. -/
def unaryOpApply (t : TokenTypes) (_r : ExecutionResult) : Except PyError RVal :=
  match t with
  | .MINUS => .error .typeError
  | .HEAD => .error .attributeError
  | .TAIL => .error .attributeError
  | .NIL => .error .attributeError
  | .NOT => .ok (.value (.BooleanObject false))
  | _ => .error .keyError

/-- Test used by ConditionalExpression.execute: whether the condition
value compares equal to BooleanObject(True). Modelled from the spec for
the external value classes: true exactly for a true BooleanObject (no
claim exercises cross-class equality). -/
def valIsBooleanTrue : RVal → Bool
  | .value (.BooleanObject b) => b
  | _ => false

/-- The execute method of every Expression subclass, with explicit fuel
for the Python recursion. Arguments: fuel, node, closure dict, pending
argument list (the callstack; Python None and the empty list are both
falsy and behave identically, so None is modelled as the empty list). The
result carries the ExecutionResult together with the final states of the
dict object and of the list object the caller passed in. -/
def execute : Nat → Expr → Env → List Expr → Except PyError (ExecutionResult × Env × List Expr)
  | 0, _, _, _ => .error .recursionError
  | fuel+1, e, closure, callstack =>
    match e with
    | .LetExpression ids inits body =>
        -- closure_copy = closure.copy(), taken before the binding loop
        let closureCopy := closure
        -- the binding loop stores into the RECEIVED dict, not the copy
        let closureMut := (ids.zip inits).foldl (fun acc p => bindRule acc p.1 p.2) closure
        do
          -- the body runs in the copy, which the loop above never touched
          let (r, _, cs1) ← execute fuel body closureCopy callstack
          .ok (if r.type = .literal then r else ⟨.letExpression, .node e⟩, closureMut, cs1)
    | .LambdaExpression name body =>
        match callstack with
        | [] => execute fuel body closure callstack
        | c :: cs =>
            -- expr = callstack[-1]; bind; callstack.pop()
            let expr := (c :: cs).getLast (List.cons_ne_nil c cs)
            let closure1 := bindRule closure name expr
            execute fuel body closure1 (c :: cs).dropLast
    | .ConditionalExpression c t a =>
        do
          -- the condition, consequent and alternative all run with a None
          -- callstack and mutate the shared dict
          let (cr, c1, _) ← execute fuel c closure []
          if cr.type = .literal then
            if valIsBooleanTrue cr.val then
              do
                let (tr, c2, _) ← execute fuel t c1 []
                .ok (tr, c2, callstack)
            else
              match a with
              | some alt =>
                  do
                    let (ar, c2, _) ← execute fuel alt c1 []
                    .ok (ar, c2, callstack)
              | none => .error .attributeError
          else .ok (⟨.conditionalExpression, .node e⟩, c1, callstack)
    | .ApplicationExpression f a =>
        -- the function runs against closure.copy(), so the dict the caller
        -- passed in is returned untouched; a truthy callstack is shared and
        -- its mutations are visible to the caller, a falsy one is replaced
        -- by the fresh list [argument]
        if callstack.isEmpty then
          do
            let (r, _, _) ← execute fuel f closure [a]
            .ok (if is_expression_type r.type then ⟨.applicationExpression, .node e⟩ else r,
                 closure, callstack)
        else
          do
            let (r, _, cs1) ← execute fuel f closure (callstack ++ [a])
            .ok (if is_expression_type r.type then ⟨.applicationExpression, .node e⟩ else r,
                 closure, cs1)
    | .BinaryExpression l op r =>
        if free_variables e ⊆ envKeys closure then
          do
            -- both operands run against the same shared dict, callstack None
            let (lr, c1, _) ← execute fuel l closure []
            let (rr, c2, _) ← execute fuel r c1 []
            let v ← binaryOpApply op.type lr.val rr.val
            .ok (⟨.literal, v⟩, c2, callstack)
        else .ok (⟨.binaryExpression, .node e⟩, closure, callstack)
    | .UnaryExpression op inner =>
        if free_variables e ⊆ envKeys closure then
          do
            let (r, c1, _) ← execute fuel inner closure []
            let v ← unaryOpApply op.type r
            .ok (⟨.literal, v⟩, c1, callstack)
        else .ok (⟨.expressionBase, .node e⟩, closure, callstack)
    | .ListExpression _ => .error .notImplementedError
    | .AtomExpression raw ty =>
        match ty with
        | .INTEGER => .ok (⟨.literal, .value (.IntegerObject (strToInt raw))⟩, closure, callstack)
        | .REAL => .ok (⟨.literal, .value (.RealObject raw)⟩, closure, callstack)
        | .COMPLEX => .ok (⟨.literal, .value (.ComplexObject raw)⟩, closure, callstack)
        | .STRING => .ok (⟨.literal, .value (.StringObject raw)⟩, closure, callstack)
        | .BOOLEAN => .ok (⟨.literal, .value (.BooleanObject (raw = "true"))⟩, closure, callstack)
        | _ =>
            match dictLookup closure raw with
            | some expr => execute fuel expr closure callstack
            | none => .ok (⟨.atomExpression, .node e⟩, closure, callstack)
    | .ExpressionList _ => .error .notImplementedError
    | .InternalName _ => .error .notImplementedError

/-- The execute method of the non-expression statements: import and
export raise NotImplementedError; assignment applies the binding rule
pairwise against the received dict itself and returns a NoneType
result. -/
def stmtExecute : Stmt → Env → List Expr → Except PyError (ExecutionResult × Env × List Expr)
  | .ImportStatement _ _, _, _ => .error .notImplementedError
  | .ExportStatement _ _, _, _ => .error .notImplementedError
  | .AssignmentStatement ids exprs, closure, callstack =>
      .ok (⟨.noneType, .pyNone⟩,
           (ids.zip exprs).foldl (fun acc p => bindRule acc p.1 p.2) closure, callstack)

/-! The scanner (src/quark/core/scanner.py). The immutable construction
data (source text and the ignore_skippables flag) is separated from the
four mutable position fields; the inner while loops become fueled helper
functions, with fuel exhaustion reported as a distinguished error that is
unreachable whenever the fuel exceeds the number of unread characters. -/

/-- Immutable scanner construction data: the source as a character list
and the flag controlling whether whitespace runs are discarded. -/
structure ScanCtx where
  source : List Char
  ignoreSkippables : Bool

/-- Mutable scanner position state: lexeme start, read position, column
and line. -/
structure ScanState where
  sourceStart : Nat
  sourcePos : Nat
  columnPos : Nat
  linePos : Nat
  deriving DecidableEq

/-- Errors raised while scanning: the two QuarkScannerError raises of
next_token, plus the fuel-exhaustion marker of the embedding. -/
inductive ScanErr where
  | leadingZeros
  | invalidCharacter : Option Char → ScanErr
  | outOfFuel
  deriving DecidableEq

namespace QuarkScanner

/-- Test _reached_end_of_source(off): source_pos == source_len - off,
computed over the integers exactly as Python does (for off larger than
the length the right side is negative and the test is false, not
truncated). -/
def reached_end_of_source (ctx : ScanCtx) (st : ScanState) (off : Int) : Bool :=
  (st.sourcePos : Int) = (ctx.source.length : Int) - off

/-- The _current_char property: the character at source_pos, or None at
the end of the source. -/
def current_char (ctx : ScanCtx) (st : ScanState) : Option Char :=
  if reached_end_of_source ctx st 0 then none else ctx.source.get? st.sourcePos

/-- The _current_nchars(n) view: the (clamped) slice of n characters at
source_pos, or None when _reached_end_of_source(n - 1) holds. -/
def current_nchars (ctx : ScanCtx) (st : ScanState) (n : Nat) : Option (List Char) :=
  if reached_end_of_source ctx st ((n : Int) - 1) then none
  else some ((ctx.source.drop st.sourcePos).take n)

/-- The _consumed_chars property: the slice from source_start to
source_pos. -/
def consumed_chars (ctx : ScanCtx) (st : ScanState) : List Char :=
  (ctx.source.drop st.sourceStart).take (st.sourcePos - st.sourceStart)

/-- The _match(s) test: false when _reached_end_of_source(len(s) - 1)
holds, otherwise comparison of the (clamped) slice at source_pos with s. -/
def match_str (ctx : ScanCtx) (st : ScanState) (s : List Char) : Bool :=
  if reached_end_of_source ctx st ((s.length : Int) - 1) then false
  else (ctx.source.drop st.sourcePos).take s.length = s

/-- The _consume_char step: a no-op at the end of the source; otherwise a
newline resets the column and bumps the line, and in every non-end case
the column and position advance by one. -/
def consume_char (ctx : ScanCtx) (st : ScanState) : ScanState :=
  if reached_end_of_source ctx st 0 then st
  else
    let st1 :=
      if ctx.source.get? st.sourcePos = some '\n' then
        { st with columnPos := 0, linePos := st.linePos + 1 }
      else st
    { st1 with columnPos := st1.columnPos + 1, sourcePos := st1.sourcePos + 1 }

/-- The _consume_nchars(n) step: n repetitions of _consume_char. -/
def consume_nchars (ctx : ScanCtx) : ScanState → Nat → ScanState
  | st, 0 => st
  | st, n+1 => consume_nchars ctx (consume_char ctx st) n

/-- The _discard_consumed_chars step: source_start catches up with
source_pos. -/
def discard_consumed_chars (st : ScanState) : ScanState :=
  { st with sourceStart := st.sourcePos }

/-- Identifier start characters: ASCII letters, underscore, or any
codepoint of 128 and above. -/
def isIdStartChar (c : Char) : Bool :=
  ('A' ≤ c && c ≤ 'Z') || ('a' ≤ c && c ≤ 'z') || c = '_' || c.toNat ≥ 128

/-- Identifier continuation characters: identifier starts plus decimal
digits. -/
def isIdChar (c : Char) : Bool :=
  ('A' ≤ c && c ≤ 'Z') || ('a' ≤ c && c ≤ 'z') || ('0' ≤ c && c ≤ '9')
    || c = '_' || c.toNat ≥ 128

/-- Decimal digit characters. -/
def isNumChar (c : Char) : Bool :=
  '0' ≤ c && c ≤ '9'

/-- Skippable whitespace characters: space and tab. -/
def isSkippableChar (c : Char) : Bool :=
  c = ' ' || c = '\t'

/-- The _is_skippable test at the current position (false at the end of
the source). -/
def is_skippable (ctx : ScanCtx) (st : ScanState) : Bool :=
  match current_char ctx st with
  | some c => isSkippableChar c
  | none => false

/-- The _is_num_char test at the current position. -/
def is_num_char (ctx : ScanCtx) (st : ScanState) : Bool :=
  match current_char ctx st with
  | some c => isNumChar c
  | none => false

/-- The _is_id_start test at the current position. -/
def is_id_start (ctx : ScanCtx) (st : ScanState) : Bool :=
  match current_char ctx st with
  | some c => isIdStartChar c
  | none => false

/-- The _is_id_char test at the current position. -/
def is_id_char (ctx : ScanCtx) (st : ScanState) : Bool :=
  match current_char ctx st with
  | some c => isIdChar c
  | none => false

/-- The _is_str_start test at the current position. Present in the source
but never called by next_token. -/
def is_str_start (ctx : ScanCtx) (st : ScanState) : Bool :=
  match current_char ctx st with
  | some c => c = '"'
  | none => false

/-- The _is_str_char test at the current position: any ASCII character
other than the double quote. Present in the source but never called by
next_token. -/
def is_str_char (ctx : ScanCtx) (st : ScanState) : Bool :=
  match current_char ctx st with
  | some c => c ≠ '"' && c.toNat ≤ 127
  | none => false

/-- Fuel bound that strictly exceeds the number of source characters, so
every fueled while loop below runs to its exit condition. -/
def fuelOf (ctx : ScanCtx) : Nat :=
  ctx.source.length + 1

/-- The whitespace-run while loop of next_token. -/
def skip_run (ctx : ScanCtx) : Nat → ScanState → ScanState
  | 0, st => st
  | fuel+1, st =>
      if is_skippable ctx st then skip_run ctx fuel (consume_char ctx st) else st

/-- The digit-run while loop of the numeric branch, with the
leading-zero check: at each remaining digit, when the literal started
with 0 and the digit is not another 0, QuarkScannerError is raised. -/
def digits_checked_run (ctx : ScanCtx) : Nat → Bool → ScanState → Except ScanErr ScanState
  | 0, _, _ => .error .outOfFuel
  | fuel+1, mustBeRealOrZero, st =>
      if is_num_char ctx st then
        if mustBeRealOrZero && !(match_str ctx st ['0']) then .error .leadingZeros
        else digits_checked_run ctx fuel mustBeRealOrZero (consume_char ctx st)
      else .ok st

/-- The unchecked digit-run while loops (fractional part and the digit
run after a leading period). -/
def digits_run (ctx : ScanCtx) : Nat → ScanState → ScanState
  | 0, st => st
  | fuel+1, st =>
      if is_num_char ctx st then digits_run ctx fuel (consume_char ctx st) else st

/-- The identifier-continuation while loop. -/
def id_run (ctx : ScanCtx) : Nat → ScanState → ScanState
  | 0, st => st
  | fuel+1, st =>
      if is_id_char ctx st then id_run ctx fuel (consume_char ctx st) else st

/-- Three-character operator table. Modelled from the spec: the table
lives in quark/core/token_.py, which is not part of the analysed
sources; the spec names the three-tier longest-match lookup but lists no
three-character lexeme, so the table is left empty (no claim depends on
its entries). -/
def triple_char_tokens : List (List Char × TokenTypes) := []

/-- Two-character operator table, modelled from the spec operator set. -/
def double_char_tokens : List (List Char × TokenTypes) :=
  [("<=".toList, .LESS_EQUAL), (">=".toList, .GREATER_EQUAL),
   ("==".toList, .DOUBLE_EQUAL), ("!=".toList, .EXCLAMATION_EQUAL),
   ("//".toList, .DOUBLE_SLASH), ("**".toList, .DOUBLE_STAR),
   ("/%".toList, .SLASH_PERCENT)]

/-- One-character operator and punctuation table, modelled from the spec
operator set; the double quote is not an operator (string literals are a
dedicated lexical class in the spec). -/
def single_char_tokens : List (List Char × TokenTypes) :=
  [("+".toList, .PLUS), ("-".toList, .MINUS), ("*".toList, .STAR),
   ("/".toList, .SLASH), ("%".toList, .PERCENT), ("<".toList, .LESS),
   (">".toList, .GREATER), ("(".toList, .LPAREN), (")".toList, .RPAREN),
   ("[".toList, .LBRACKET), ("]".toList, .RBRACKET), (",".toList, .COMMA),
   ("=".toList, .EQUAL), ("\\".toList, .BACKSLASH)]

/-- Keyword table, modelled from the spec keyword set. -/
def keyword_tokens : List (List Char × TokenTypes) :=
  [("let".toList, .KW_LET), ("in".toList, .KW_IN), ("if".toList, .KW_IF),
   ("then".toList, .KW_THEN), ("else".toList, .KW_ELSE),
   ("and".toList, .AND), ("or".toList, .OR), ("xor".toList, .XOR),
   ("not".toList, .NOT), ("head".toList, .HEAD), ("tail".toList, .TAIL),
   ("nil".toList, .NIL), ("true".toList, .BOOLEAN), ("false".toList, .BOOLEAN),
   ("import".toList, .KW_IMPORT), ("export".toList, .KW_EXPORT)]

/-- Lookup of a lexeme in one of the token tables. -/
def lookupTable : List (List Char × TokenTypes) → List Char → Option TokenTypes
  | [], _ => none
  | (k, t) :: rest, s => if k = s then some t else lookupTable rest s

/-- Emission of a token: the consumed lexeme with the recorded start
position, followed by _discard_consumed_chars. -/
def finishToken (ctx : ScanCtx) (pos : Nat × Nat) (ty : TokenTypes) (st : ScanState) :
    Except ScanErr (Option Token × ScanState) :=
  .ok (some ⟨ty, String.mk (consumed_chars ctx st), pos⟩, discard_consumed_chars st)

/-- The branch chain of next_token that runs after the whitespace block:
numeric literals (with leading-zero check and REAL and COMPLEX
reclassification), the period branch, the three-, two- and one-character
table lookups, identifiers and keywords, and the invalid-character
error. No branch of this chain handles the double quote: next_token
never consults _is_str_start or _is_str_char. -/
def scan_after_skippables (ctx : ScanCtx) (pos : Nat × Nat) (st : ScanState) :
    Except ScanErr (Option Token × ScanState) :=
  if is_num_char ctx st then
    let mustBeRealOrZero := match_str ctx st ['0']
    match digits_checked_run ctx (fuelOf ctx) mustBeRealOrZero (consume_char ctx st) with
    | .error e => .error e
    | .ok st2 =>
      let st3 :=
        if match_str ctx st2 ['.'] then digits_run ctx (fuelOf ctx) (consume_char ctx st2)
        else st2
      let ty :=
        if match_str ctx st2 ['.'] then TokenTypes.REAL else TokenTypes.INTEGER
      if match_str ctx st3 ['i', 'm'] then
        finishToken ctx pos .COMPLEX (consume_nchars ctx st3 2)
      else finishToken ctx pos ty st3
  else if match_str ctx st ['.'] then
    let st1 := consume_char ctx st
    if is_num_char ctx st1 then
      let st2 := digits_run ctx (fuelOf ctx) (consume_char ctx st1)
      if match_str ctx st2 ['i', 'm'] then
        finishToken ctx pos .COMPLEX (consume_nchars ctx st2 2)
      else finishToken ctx pos .REAL st2
    else finishToken ctx pos .PERIOD st1
  else
    match (current_nchars ctx st 3).bind (lookupTable triple_char_tokens) with
    | some ty => finishToken ctx pos ty (consume_nchars ctx st 3)
    | none =>
      match (current_nchars ctx st 2).bind (lookupTable double_char_tokens) with
      | some ty => finishToken ctx pos ty (consume_nchars ctx st 2)
      | none =>
        match (current_char ctx st).bind (fun c => lookupTable single_char_tokens [c]) with
        | some ty => finishToken ctx pos ty (consume_char ctx st)
        | none =>
          if is_id_start ctx st then
            let st1 := id_run ctx (fuelOf ctx) (consume_char ctx st)
            match lookupTable keyword_tokens (consumed_chars ctx st1) with
            | some ty => finishToken ctx pos ty st1
            | none => finishToken ctx pos .ID st1
          else .error (.invalidCharacter (current_char ctx st))

/-- The next_token method: record the start position; consume a
whitespace run first (discarding it and possibly returning the None
end-of-input marker when ignore_skippables is set, emitting a SKIP token
otherwise); then scan one token through the branch chain. -/
def next_token (ctx : ScanCtx) (st0 : ScanState) : Except ScanErr (Option Token × ScanState) :=
  let pos := (st0.columnPos, st0.linePos)
  if is_skippable ctx st0 then
    let st1 := skip_run ctx (fuelOf ctx) (consume_char ctx st0)
    if ctx.ignoreSkippables then
      let st2 := discard_consumed_chars st1
      if reached_end_of_source ctx st2 0 then .ok (none, st2)
      else scan_after_skippables ctx pos st2
    else
      let ret := consumed_chars ctx st1
      .ok (some ⟨TokenTypes.SKIP, String.mk ret, pos⟩, discard_consumed_chars st1)
  else scan_after_skippables ctx pos st0

/-- The tokens method loop: while the end of the source is not reached,
append the result of next_token — including, as the source does, a final
None end-of-input marker whenever the last call consumed only trailing
whitespace. -/
def tokensLoop (ctx : ScanCtx) : Nat → ScanState → Except ScanErr (List (Option Token))
  | 0, _ => .error .outOfFuel
  | fuel+1, st =>
      if reached_end_of_source ctx st 0 then .ok []
      else
        match next_token ctx st with
        | .error e => .error e
        | .ok (t, st1) =>
          match tokensLoop ctx fuel st1 with
          | .error e => .error e
          | .ok rest => .ok (t :: rest)

/-- Scanner construction state: both position counters and both lexeme
cursors start at zero. -/
def initState : ScanState :=
  ⟨0, 0, 0, 0⟩

/-- Construction of a scanner over a source string. -/
def mkCtx (source : String) (ignore : Bool) : ScanCtx :=
  ⟨source.toList, ignore⟩

/-- One next_token call on a freshly constructed scanner with
ignore_skippables set. -/
def scanOne (source : String) : Except ScanErr (Option Token × ScanState) :=
  next_token (mkCtx source true) initState

/-- The tokens() method on a freshly constructed scanner. -/
def tokens (source : String) (ignore : Bool) : Except ScanErr (List (Option Token)) :=
  tokensLoop (mkCtx source ignore) (source.toList.length + 1) initState

/-- Proof-side predicate: the character just before the read position
exists and is not skippable whitespace. Every token-emitting path of
next_token leaves the scanner in such a state, which is why a trailing
whitespace run can only be consumed by the None-returning path. -/
def endsNonSkippable (ctx : ScanCtx) (st : ScanState) : Prop :=
  ∃ c, ctx.source.get? (st.sourcePos - 1) = some c ∧ isSkippableChar c = false

end QuarkScanner

/-! Concrete nodes used by the claim instances. -/

/-- Identifier reference atom x. -/
def xAtom : Expr := .AtomExpression "x" .ID

/-- Integer literal atom 1. -/
def oneAtom : Expr := .AtomExpression "1" .INTEGER

/-- Integer literal atom 2. -/
def twoAtom : Expr := .AtomExpression "2" .INTEGER

/-- Operator token for PLUS. -/
def plusToken : Token := ⟨.PLUS, "+", (0, 0)⟩

/-- Operator token for MINUS. -/
def minusToken : Token := ⟨.MINUS, "-", (0, 0)⟩

/-- Operator token for SLASH_PERCENT, the floor-modulo-division style
operator. -/
def slashPercentToken : Token := ⟨.SLASH_PERCENT, "/%", (0, 0)⟩

/-- The expression x + 1. -/
def xPlusOne : Expr := .BinaryExpression xAtom plusToken oneAtom

/-- The expression let x = 1 in x. -/
def letShadowNode : Expr := .LetExpression ["x"] [oneAtom] xAtom

/-- The lambda \ x. x, whose single variable is bound. -/
def lamXX : Expr := .LambdaExpression "x" xAtom

/-- The lambda \ ab. ab with a two-character binding identifier. -/
def lamAbAb : Expr := .LambdaExpression "ab" (.AtomExpression "ab" .ID)

/-- The unary expression - 1 (closed). -/
def negOne : Expr := .UnaryExpression minusToken oneAtom

/-- The unary expression - x (open: x free). -/
def negX : Expr := .UnaryExpression minusToken xAtom

/-- The binary expression 1 /% 2 with the not-yet-implemented operator. -/
def slashPercentNode : Expr := .BinaryExpression oneAtom slashPercentToken twoAtom

/-! Theorems settling the claims. -/

/-- C1: executing let x = 1 in x against the empty environment shows that
LetExpression.execute stores the binding into the dict the caller passed
in (which comes back extended with x) while the body runs in the
untouched copy and therefore stays stuck; the claim that the bindings go
into the copy and the received environment comes back unchanged fails on
this input. -/
theorem c1_let_execute_mutates_callers_environment :
    execute 2 letShadowNode [] [] =
      .ok (⟨.letExpression, .node letShadowNode⟩, [("x", oneAtom)], []) ∧
    ([("x", oneAtom)] : Env) ≠ ([] : Env) :=
  ⟨rfl, List.cons_ne_nil _ _⟩

/-- C2: for the node \ x. x the variables query returns the singleton x
while the union of the free_variables and bound_variables queries is
empty (LambdaExpression.bound_variables intersects with the bound set of
the body instead of its variable set), so the stated equality fails on
this expression node. -/
theorem c2_variables_union_fails_on_lambda :
    all_variables lamXX = {"x"} ∧
    free_variables lamXX ∪ bound_variables lamXX = ∅ ∧
    all_variables lamXX ≠ free_variables lamXX ∪ bound_variables lamXX := by
  decide

/-- C3: for the two-character binding identifier ab the lambda
\ ab. ab keeps ab among its free variables, because the source subtracts
set(binding_identifier) — the set of one-character substrings {a, b} —
rather than the singleton {ab}; the claimed removal of the binder for
identifiers of any length fails. -/
theorem c3_multichar_binder_stays_free :
    free_variables lamAbAb = {"ab"} ∧ "ab" ∈ free_variables lamAbAb := by
  decide

/-- C4: executing the closed unary expression - 1 raises TypeError
because UnaryExpression.execute applies the operator function to the
whole ExecutionResult namedtuple instead of its val field, and executing
the open unary expression - x returns a stuck result tagged with the
abstract Expression class rather than with UnaryExpression; both halves
of the claim fail on the code. -/
theorem c4_unary_execute_misapplies_operator :
    execute 2 negOne [] [] = .error .typeError ∧
    execute 1 negX [] [] = .ok (⟨.expressionBase, .node negX⟩, [], []) :=
  ⟨rfl, rfl⟩

/-- C5: scanning the three-character source consisting of a quoted letter
raises the invalid-character QuarkScannerError at the opening double
quote, because next_token has no string-literal branch (the scanner
defines _is_str_start and _is_str_char but never calls them); the claimed
single string token is never produced. -/
theorem c5_string_literal_scan_raises :
    QuarkScanner.scanOne "\"a\"" =
      .error (.invalidCharacter (some (Char.ofNat 34))) :=
  rfl

/-- C6 counterexample: the source 00 starts with the digit 0 immediately
followed by another decimal digit and forms no real literal, yet
next_token raises nothing and returns one INTEGER token with lexeme 00,
so the claim fails as stated. -/
theorem c6_counterexample_all_zero_integer :
    QuarkScanner.scanOne "00" =
      .ok (some ⟨.INTEGER, "00", (0, 0)⟩, ⟨2, 2, 2, 0⟩) ∧
    QuarkScanner.scanOne "00" ≠ .error .leadingZeros := by
  refine ⟨rfl, fun h => ?_⟩
  rw [show QuarkScanner.scanOne "00" =
        .ok (some ⟨.INTEGER, "00", (0, 0)⟩, ⟨2, 2, 2, 0⟩) from rfl] at h
  exact Except.noConfusion h

/-- C7: executing the assignment x := x + 1 against an environment
binding x to the literal expression 1 stores the wrapped self-reference
Application(Lambda(x, x + 1), 1) as the new entry for x and returns a
NoneType result, exactly as claimed. -/
theorem c7_self_reference_rebinding :
    stmtExecute (.AssignmentStatement ["x"] [xPlusOne]) [("x", oneAtom)] [] =
      .ok (⟨.noneType, .pyNone⟩,
           [("x", .ApplicationExpression (.LambdaExpression "x" xPlusOne) oneAtom)],
           []) :=
  rfl

/-- C8: executing x + 1 with x unbound returns a stuck result tagged
BinaryExpression carrying the node itself unchanged, and executing it
with x bound to the literal expression 1 returns a literal result whose
value is the integer 2, exactly as claimed. -/
theorem c8_binary_stuck_then_literal_two :
    execute 3 xPlusOne [] [] = .ok (⟨.binaryExpression, .node xPlusOne⟩, [], []) ∧
    execute 4 xPlusOne [("x", oneAtom)] [] =
      .ok (⟨.literal, .value (.IntegerObject 2)⟩, [("x", oneAtom)], []) :=
  ⟨rfl, rfl⟩

/-- C9 counterexample: evaluating the closed binary expression 1 /% 2,
whose operator is the integer floor-modulo-division operator, returns an
ExecutionResult (a literal-tagged Python None, since the mapping entry is
a lambda returning None) instead of failing with an unsupported-operation
error, so the claim fails as stated. -/
theorem c9_counterexample_slash_percent_returns_none :
    execute 2 slashPercentNode [] [] = .ok (⟨.literal, .pyNone⟩, [], []) :=
  rfl

/-- C9 as amended: for every environment and pending-argument stack,
executing an ImportStatement, ExportStatement, ListExpression,
ExpressionList or FreshName node fails with the unsupported-operation
error (NotImplementedError), while evaluating the closed binary
expression 1 /% 2 does not fail but returns a literal-tagged Python
None. -/
theorem c9_amended_unsupported_operations :
    (∀ (pn : List String) (an : Option (List String)) (env : Env) (cs : List Expr),
        stmtExecute (.ImportStatement pn an) env cs = .error .notImplementedError) ∧
    (∀ (pn : List String) (an : Option (List String)) (env : Env) (cs : List Expr),
        stmtExecute (.ExportStatement pn an) env cs = .error .notImplementedError) ∧
    (∀ (n : Nat) (items : List Expr) (env : Env) (cs : List Expr),
        execute (n + 1) (.ListExpression items) env cs = .error .notImplementedError) ∧
    (∀ (n : Nat) (es : List Expr) (env : Env) (cs : List Expr),
        execute (n + 1) (.ExpressionList es) env cs = .error .notImplementedError) ∧
    (∀ (n : Nat) (i : String) (env : Env) (cs : List Expr),
        execute (n + 1) (.InternalName i) env cs = .error .notImplementedError) ∧
    execute 2 slashPercentNode [] [] = .ok (⟨.literal, .pyNone⟩, [], []) :=
  ⟨fun _ _ _ _ => rfl, fun _ _ _ _ => rfl, fun _ _ _ _ => rfl,
   fun _ _ _ _ => rfl, fun _ _ _ _ => rfl, rfl⟩

/-! Lemmas on the scanner leading to the general theorems for C6 and
C10. -/

namespace QuarkScanner

theorem reached_zero_iff (ctx : ScanCtx) (st : ScanState) :
    reached_end_of_source ctx st 0 = true ↔ st.sourcePos = ctx.source.length := by
  simp [reached_end_of_source]

theorem get?_lt_of_some {l : List Char} {n : Nat} {a : Char} (h : l.get? n = some a) :
    n < l.length := by
  by_contra hlen
  rw [List.get?_eq_none.mpr (by omega)] at h
  exact Option.noConfusion h

theorem current_char_some {ctx : ScanCtx} {st : ScanState} {c : Char}
    (h : current_char ctx st = some c) :
    ctx.source.get? st.sourcePos = some c ∧ st.sourcePos < ctx.source.length := by
  unfold current_char at h
  split at h
  · exact absurd h (by simp)
  · exact ⟨h, get?_lt_of_some h⟩

theorem consume_char_sourcePos {ctx : ScanCtx} {st : ScanState}
    (h : st.sourcePos < ctx.source.length) :
    (consume_char ctx st).sourcePos = st.sourcePos + 1 := by
  unfold consume_char
  have h0 : reached_end_of_source ctx st 0 = false := by
    simp [reached_end_of_source]; omega
  rw [h0]
  simp only [Bool.false_eq_true, if_false]
  split <;> rfl

theorem skippableChar_cases {c : Char} (h : isSkippableChar c = true) :
    c = Char.ofNat 32 ∨ c = Char.ofNat 9 := by
  simp only [isSkippableChar, Bool.or_eq_true, decide_eq_true_eq] at h
  exact h

theorem numChar_not_skippable {c : Char} (h : isNumChar c = true) :
    isSkippableChar c = false := by
  cases hsk : isSkippableChar c
  · rfl
  · rcases skippableChar_cases hsk with rfl | rfl <;> exact absurd h (by decide)

theorem idChar_not_skippable {c : Char} (h : isIdChar c = true) :
    isSkippableChar c = false := by
  cases hsk : isSkippableChar c
  · rfl
  · rcases skippableChar_cases hsk with rfl | rfl <;> exact absurd h (by decide)

theorem idStartChar_not_skippable {c : Char} (h : isIdStartChar c = true) :
    isSkippableChar c = false := by
  cases hsk : isSkippableChar c
  · rfl
  · rcases skippableChar_cases hsk with rfl | rfl <;> exact absurd h (by decide)

theorem is_num_char_inv {ctx : ScanCtx} {st : ScanState} (h : is_num_char ctx st = true) :
    ∃ c, current_char ctx st = some c ∧ isNumChar c = true := by
  unfold is_num_char at h
  cases hc : current_char ctx st with
  | none => rw [hc] at h; exact Bool.noConfusion h
  | some c => rw [hc] at h; exact ⟨c, rfl, h⟩

theorem is_id_char_inv {ctx : ScanCtx} {st : ScanState} (h : is_id_char ctx st = true) :
    ∃ c, current_char ctx st = some c ∧ isIdChar c = true := by
  unfold is_id_char at h
  cases hc : current_char ctx st with
  | none => rw [hc] at h; exact Bool.noConfusion h
  | some c => rw [hc] at h; exact ⟨c, rfl, h⟩

theorem is_id_start_inv {ctx : ScanCtx} {st : ScanState} (h : is_id_start ctx st = true) :
    ∃ c, current_char ctx st = some c ∧ isIdStartChar c = true := by
  unfold is_id_start at h
  cases hc : current_char ctx st with
  | none => rw [hc] at h; exact Bool.noConfusion h
  | some c => rw [hc] at h; exact ⟨c, rfl, h⟩

theorem consume_char_endsNS {ctx : ScanCtx} {st : ScanState} {c : Char}
    (h : current_char ctx st = some c) (hc : isSkippableChar c = false) :
    endsNonSkippable ctx (consume_char ctx st) := by
  obtain ⟨hget, hlt⟩ := current_char_some h
  exact ⟨c, by rw [consume_char_sourcePos hlt]; simpa using hget, hc⟩

theorem digits_run_endsNS (ctx : ScanCtx) :
    ∀ (fuel : Nat) (st : ScanState), endsNonSkippable ctx st →
      endsNonSkippable ctx (digits_run ctx fuel st) := by
  intro fuel
  induction fuel with
  | zero => intro st h; exact h
  | succ n ih =>
      intro st h
      unfold digits_run
      split
      · next hnum =>
          obtain ⟨c, hc, hnumc⟩ := is_num_char_inv hnum
          exact ih _ (consume_char_endsNS hc (numChar_not_skippable hnumc))
      · exact h

theorem id_run_endsNS (ctx : ScanCtx) :
    ∀ (fuel : Nat) (st : ScanState), endsNonSkippable ctx st →
      endsNonSkippable ctx (id_run ctx fuel st) := by
  intro fuel
  induction fuel with
  | zero => intro st h; exact h
  | succ n ih =>
      intro st h
      unfold id_run
      split
      · next hidc =>
          obtain ⟨c, hc, hcc⟩ := is_id_char_inv hidc
          exact ih _ (consume_char_endsNS hc (idChar_not_skippable hcc))
      · exact h

theorem digits_checked_run_endsNS (ctx : ScanCtx) :
    ∀ (fuel : Nat) (must : Bool) (st st2 : ScanState),
      digits_checked_run ctx fuel must st = .ok st2 →
      endsNonSkippable ctx st → endsNonSkippable ctx st2 := by
  intro fuel
  induction fuel with
  | zero => intro must st st2 h _; exact Except.noConfusion h
  | succ n ih =>
      intro must st st2 h hst
      unfold digits_checked_run at h
      split at h
      · next hnum =>
          split at h
          · exact Except.noConfusion h
          · obtain ⟨c, hc, hnumc⟩ := is_num_char_inv hnum
            exact ih must _ st2 h (consume_char_endsNS hc (numChar_not_skippable hnumc))
      · cases h; exact hst


theorem match_str_take {ctx : ScanCtx} {st : ScanState} {s : List Char}
    (h : match_str ctx st s = true) :
    (ctx.source.drop st.sourcePos).take s.length = s := by
  unfold match_str at h
  split at h
  · exact Bool.noConfusion h
  · exact of_decide_eq_true h

theorem take_eq_bound {l : List Char} {p n : Nat} {s : List Char}
    (h : (l.drop p).take n = s) (hlen : s.length = n) (hn : 0 < n) :
    p + n ≤ l.length := by
  have hl := congrArg List.length h
  rw [List.length_take, List.length_drop] at hl
  rcases Nat.le_total n (l.length - p) with h1 | h1
  · rw [Nat.min_eq_left h1] at hl; omega
  · rw [Nat.min_eq_right h1] at hl; omega

theorem match_str_bound {ctx : ScanCtx} {st : ScanState} {s : List Char}
    (h : match_str ctx st s = true) (hn : 0 < s.length) :
    st.sourcePos + s.length ≤ ctx.source.length :=
  take_eq_bound (match_str_take h) rfl hn

theorem take_eq_get? {l : List Char} {p n : Nat} {s : List Char}
    (h : (l.drop p).take n = s) {i : Nat} (hi : i < n) :
    l.get? (p + i) = s.get? i := by
  rw [← h]
  simp only [List.get?_eq_getElem?, List.getElem?_take_of_lt hi, List.getElem?_drop]

theorem match_str_single {ctx : ScanCtx} {st : ScanState} {c : Char}
    (h : match_str ctx st [c] = true) :
    ctx.source.get? st.sourcePos = some c := by
  have := take_eq_get? (match_str_take h) (i := 0) (by norm_num)
  simpa using this

theorem consume_nchars_sourcePos (ctx : ScanCtx) :
    ∀ (n : Nat) (st : ScanState), st.sourcePos + n ≤ ctx.source.length →
      (consume_nchars ctx st n).sourcePos = st.sourcePos + n := by
  intro n
  induction n with
  | zero => intro st _; rfl
  | succ m ih =>
      intro st h
      show (consume_nchars ctx (consume_char ctx st) m).sourcePos = _
      rw [ih (consume_char ctx st) (by rw [consume_char_sourcePos (by omega)]; omega),
          consume_char_sourcePos (by omega)]
      omega

theorem match_pair_consume_endsNS {ctx : ScanCtx} {st : ScanState} {a b : Char}
    (h : match_str ctx st [a, b] = true) (hb : isSkippableChar b = false) :
    endsNonSkippable ctx (consume_nchars ctx st 2) := by
  have hbound := match_str_bound h (by simp)
  have hget := take_eq_get? (match_str_take h) (i := 1) (by norm_num)
  refine ⟨b, ?_, hb⟩
  rw [consume_nchars_sourcePos ctx 2 st (by simpa using hbound)]
  simpa using hget

theorem endsNS_discard {ctx : ScanCtx} {st : ScanState}
    (h : endsNonSkippable ctx st) :
    endsNonSkippable ctx (discard_consumed_chars st) := h


theorem current_char_of_get {ctx : ScanCtx} {st : ScanState} {c : Char}
    (h : ctx.source.get? st.sourcePos = some c) :
    current_char ctx st = some c := by
  have hlt := get?_lt_of_some h
  unfold current_char
  have h0 : reached_end_of_source ctx st 0 = false := by
    simp [reached_end_of_source]; omega
  rw [h0]
  simpa using h

theorem current_nchars_some {ctx : ScanCtx} {st : ScanState} {n : Nat} {cs : List Char}
    (h : current_nchars ctx st n = some cs) :
    reached_end_of_source ctx st ((n : Int) - 1) = false ∧
      (ctx.source.drop st.sourcePos).take n = cs := by
  unfold current_nchars at h
  split at h
  · exact absurd h (by simp)
  · next hne => exact ⟨Bool.of_not_eq_true hne, by simpa using h⟩

theorem lookup_prop {tbl : List (List Char × TokenTypes)} (p : List Char → Bool)
    (hP : tbl.all (fun kv => p kv.1) = true) :
    ∀ {s : List Char} {ty : TokenTypes}, lookupTable tbl s = some ty → p s = true := by
  induction tbl with
  | nil => intro s ty h; exact Option.noConfusion h
  | cons kv rest ih =>
      intro s ty h
      rw [List.all_cons, Bool.and_eq_true] at hP
      unfold lookupTable at h
      split at h
      · next heq => exact heq ▸ hP.1
      · exact ih hP.2 h

theorem triple_lookup_none (ctx : ScanCtx) (st : ScanState) :
    (current_nchars ctx st 3).bind (lookupTable triple_char_tokens) = none := by
  cases h : current_nchars ctx st 3 <;> rfl

theorem finishToken_state {ctx : ScanCtx} {pos : Nat × Nat} {ty : TokenTypes}
    {st : ScanState} {t : Option Token} {st' : ScanState}
    (h : finishToken ctx pos ty st = .ok (t, st')) :
    st' = discard_consumed_chars st := by
  unfold finishToken at h
  injection h with h1
  exact (congrArg Prod.snd h1).symm



theorem take2_endsNS {ctx : ScanCtx} {st : ScanState} {cs : List Char} {b : Char}
    (htake : (ctx.source.drop st.sourcePos).take 2 = cs)
    (hlen2 : cs.length = 2) (hg1 : cs.get? 1 = some b)
    (hb : isSkippableChar b = false) :
    endsNonSkippable ctx (consume_nchars ctx st 2) := by
  have hbound : st.sourcePos + 2 ≤ ctx.source.length :=
    take_eq_bound htake hlen2 (by norm_num)
  have hget : ctx.source.get? (st.sourcePos + 1) = some b := by
    have h1 := take_eq_get? htake (i := 1) (by norm_num)
    rw [hg1] at h1
    exact h1
  refine ⟨b, ?_, hb⟩
  rw [consume_nchars_sourcePos ctx 2 st hbound]
  simpa using hget

theorem scan_endsNS {ctx : ScanCtx} {pos : Nat × Nat} {st : ScanState}
    {t : Option Token} {st' : ScanState}
    (h : scan_after_skippables ctx pos st = .ok (t, st')) :
    endsNonSkippable ctx st' := by
  unfold scan_after_skippables at h
  dsimp only [] at h
  split at h
  · next hnum =>
    obtain ⟨c0, hc0, hnum0⟩ := is_num_char_inv hnum
    split at h
    · exact Except.noConfusion h
    · next st2 hck =>
      have hst2 : endsNonSkippable ctx st2 :=
        digits_checked_run_endsNS ctx _ _ _ _ hck
          (consume_char_endsNS hc0 (numChar_not_skippable hnum0))
      split at h
      · next hdot =>
        have hst3 : endsNonSkippable ctx
            (digits_run ctx (fuelOf ctx) (consume_char ctx st2)) :=
          digits_run_endsNS ctx _ _
            (consume_char_endsNS (current_char_of_get (match_str_single hdot)) (by decide))
        split at h
        · next him =>
          exact finishToken_state h ▸
            endsNS_discard (match_pair_consume_endsNS him (by decide))
        · exact finishToken_state h ▸ endsNS_discard hst3
      · split at h
        · next him =>
          exact finishToken_state h ▸
            endsNS_discard (match_pair_consume_endsNS him (by decide))
        · exact finishToken_state h ▸ endsNS_discard hst2
  · next hnotnum =>
    split at h
    · next hdot =>
      have hget := match_str_single hdot
      split at h
      · next hnum1 =>
        obtain ⟨c1, hc1, hnum1c⟩ := is_num_char_inv hnum1
        have hst2 : endsNonSkippable ctx
            (digits_run ctx (fuelOf ctx) (consume_char ctx (consume_char ctx st))) :=
          digits_run_endsNS ctx _ _
            (consume_char_endsNS hc1 (numChar_not_skippable hnum1c))
        split at h
        · next him =>
          exact finishToken_state h ▸
            endsNS_discard (match_pair_consume_endsNS him (by decide))
        · exact finishToken_state h ▸ endsNS_discard hst2
      · exact finishToken_state h ▸ endsNS_discard
          (consume_char_endsNS (current_char_of_get hget) (by decide))
    · rw [triple_lookup_none] at h
      split at h
      · next hdl => exact Option.noConfusion hdl
      · split at h
        · next ty2 hdl =>
          obtain ⟨cs, hn2, hlk⟩ : ∃ cs, current_nchars ctx st 2 = some cs ∧
              lookupTable double_char_tokens cs = some ty2 := by
            cases hcn : current_nchars ctx st 2 with
            | none => rw [hcn] at hdl; exact Option.noConfusion hdl
            | some cs => rw [hcn] at hdl; exact ⟨cs, rfl, hdl⟩
          have hp := lookup_prop
            (fun s => (s.length == 2) &&
              ((s.get? 1).elim false (fun c => !isSkippableChar c)))
            (by decide) hlk
          rw [Bool.and_eq_true] at hp
          obtain ⟨hlen2, hlast⟩ := hp
          have hlen2 : cs.length = 2 := by simpa using hlen2
          obtain ⟨-, htake⟩ := current_nchars_some hn2
          cases hg1 : cs.get? 1 with
          | none => rw [hg1] at hlast; exact absurd hlast (by simp)
          | some b =>
            rw [hg1] at hlast
            exact finishToken_state h ▸ endsNS_discard
              (take2_endsNS htake hlen2 hg1 (by simpa using hlast))
        · split at h
          · next ty3 hsl =>
            obtain ⟨c, hcc, hlk⟩ : ∃ c, current_char ctx st = some c ∧
                lookupTable single_char_tokens [c] = some ty3 := by
              cases hcn : current_char ctx st with
              | none => rw [hcn] at hsl; exact Option.noConfusion hsl
              | some c => rw [hcn] at hsl; exact ⟨c, rfl, hsl⟩
            have hp := lookup_prop
              (fun s => (s.get? 0).elim false (fun c => !isSkippableChar c))
              (by decide) hlk
            exact finishToken_state h ▸ endsNS_discard
              (consume_char_endsNS hcc (by simpa using hp))
          · split at h
            · next hid =>
              obtain ⟨c, hcc, hstart⟩ := is_id_start_inv hid
              have hrun : endsNonSkippable ctx
                  (id_run ctx (fuelOf ctx) (consume_char ctx st)) :=
                id_run_endsNS ctx _ _
                  (consume_char_endsNS hcc (idStartChar_not_skippable hstart))
              split at h
              · exact finishToken_state h ▸ endsNS_discard hrun
              · exact finishToken_state h ▸ endsNS_discard hrun
            · exact Except.noConfusion h



theorem next_token_endsNS {ctx : ScanCtx} {st : ScanState} {tok : Token} {st' : ScanState}
    (hig : ctx.ignoreSkippables = true)
    (h : next_token ctx st = .ok (some tok, st')) :
    endsNonSkippable ctx st' := by
  unfold next_token at h
  dsimp only [] at h
  rw [hig] at h
  simp only [if_true] at h
  split at h
  · split at h
    · injection h with h1
      exact absurd (congrArg Prod.fst h1) (by simp)
    · exact scan_endsNS h
  · exact scan_endsNS h

theorem tokensLoop_ok_nil {ctx : ScanCtx} :
    ∀ {fuel : Nat} {st : ScanState}, tokensLoop ctx fuel st = .ok [] →
      st.sourcePos = ctx.source.length := by
  intro fuel st h
  match fuel with
  | 0 => exact Except.noConfusion h
  | fuel+1 =>
    unfold tokensLoop at h
    split at h
    · next hre => exact (reached_zero_iff ctx st).mp hre
    · split at h
      · exact Except.noConfusion h
      · split at h
        · exact Except.noConfusion h
        · injection h with h1; exact absurd h1 (by simp)

theorem tokensLoop_getLast {ctx : ScanCtx} {c : Char}
    (hig : ctx.ignoreSkippables = true)
    (hlast : ctx.source.get? (ctx.source.length - 1) = some c)
    (hc : isSkippableChar c = true) :
    ∀ (fuel : Nat) (st : ScanState) (ts : List (Option Token)),
      tokensLoop ctx fuel st = .ok ts → ts ≠ [] → ts.getLast? = some none := by
  intro fuel
  induction fuel with
  | zero => intro st ts h _; exact Except.noConfusion h
  | succ n ih =>
      intro st ts h hne
      unfold tokensLoop at h
      split at h
      · injection h with h1; exact absurd h1.symm hne
      · split at h
        · exact Except.noConfusion h
        · next t st1 hnt =>
          split at h
          · exact Except.noConfusion h
          · next rest hrest =>
            injection h with h1
            subst h1
            cases rest with
            | nil =>
                have hpos : st1.sourcePos = ctx.source.length := tokensLoop_ok_nil hrest
                cases t with
                | none => rfl
                | some tok =>
                    obtain ⟨d, hd, hdns⟩ := next_token_endsNS hig hnt
                    rw [hpos, hlast] at hd
                    injection hd with hd
                    rw [← hd, hc] at hdns
                    exact Bool.noConfusion hdns
            | cons r rs =>
                rw [List.getLast?_cons_cons]
                exact ih st1 (r :: rs) hrest (by simp)

end QuarkScanner

/-- C10: when the scanner is constructed with ignore_skippables true over
a source text ending in one or more spaces or tabs and carrying at least
one real token, a successful tokens() run returns a list whose final
element is the None end-of-input marker rather than a Token: the final
next_token call consumes the trailing whitespace run, reaches the end of
the input, and its None return value is still appended. -/
theorem c10_trailing_whitespace_tokens_end_none
    (source : String) (ts : List (Option Token)) (c : Char)
    (hok : QuarkScanner.tokens source true = .ok ts)
    (hlast : source.toList.getLast? = some c)
    (hc : QuarkScanner.isSkippableChar c = true)
    (hsome : ∃ t ∈ ts, t ≠ none) :
    ts.getLast? = some none := by
  obtain ⟨t, ht, -⟩ := hsome
  have hne : ts ≠ [] := List.ne_nil_of_mem ht
  have hlast2 : (QuarkScanner.mkCtx source true).source.get?
      ((QuarkScanner.mkCtx source true).source.length - 1) = some c := by
    rw [List.getLast?_eq_getElem?] at hlast
    rw [List.get?_eq_getElem?]
    exact hlast
  exact QuarkScanner.tokensLoop_getLast rfl hlast2 hc _ QuarkScanner.initState ts hok hne


theorem c10_witness :
    QuarkScanner.tokens "a " true = .ok [some ⟨.ID, "a", (0, 0)⟩, none] ∧
    "a ".toList.getLast? = some (Char.ofNat 32) ∧
    QuarkScanner.isSkippableChar (Char.ofNat 32) = true ∧
    [some (⟨.ID, "a", (0, 0)⟩ : Token), none].getLast? = some none :=
  ⟨rfl, rfl, rfl,
   c10_trailing_whitespace_tokens_end_none "a " _ (Char.ofNat 32) rfl rfl rfl
     ⟨some ⟨.ID, "a", (0, 0)⟩, by simp, by simp⟩⟩

namespace QuarkScanner

theorem drop_cons_of_get {l : List Char} {p : Nat} {c : Char} (h : l.get? p = some c) :
    l.drop p = c :: l.drop (p + 1) := by
  have hlt := get?_lt_of_some h
  rw [List.drop_eq_getElem_cons hlt]
  rw [List.get?_eq_getElem?, List.getElem?_eq_getElem hlt] at h
  injection h with h
  rw [h]

theorem match_str_single_iff {ctx : ScanCtx} {st : ScanState}
    (hlt : st.sourcePos < ctx.source.length) (d : Char) :
    match_str ctx st [d] = true ↔ ctx.source.get? st.sourcePos = some d := by
  constructor
  · exact match_str_single
  · intro hg
    unfold match_str
    have h0 : reached_end_of_source ctx st (([d].length : Int) - 1) = false := by
      simp [reached_end_of_source]; omega
    rw [h0]
    simp [drop_cons_of_get hg]

theorem takeWhile_nil_of_not_num {ctx : ScanCtx} {st : ScanState}
    (h : is_num_char ctx st = false) :
    (ctx.source.drop st.sourcePos).takeWhile isNumChar = [] := by
  unfold is_num_char at h
  cases hc : current_char ctx st with
  | none =>
      unfold current_char at hc
      split at hc
      · next hre =>
        have hp := (reached_zero_iff ctx st).mp hre
        rw [List.drop_eq_nil_of_le (le_of_eq hp.symm)]
        rfl
      · have hlen := List.get?_eq_none.mp hc
        rw [List.drop_eq_nil_of_le hlen]
        rfl
  | some c =>
      rw [hc] at h
      obtain ⟨hg, -⟩ := current_char_some hc
      have h2 : isNumChar c = false := h
      rw [drop_cons_of_get hg, List.takeWhile_cons, h2]
      simp

theorem digits_checked_iff {ctx : ScanCtx} :
    ∀ (fuel : Nat) (must : Bool) (st : ScanState),
      ctx.source.length - st.sourcePos < fuel →
      (digits_checked_run ctx fuel must st = .error .leadingZeros ↔
        must = true ∧
          ∃ d ∈ (ctx.source.drop st.sourcePos).takeWhile isNumChar, d ≠ '0') := by
  intro fuel
  induction fuel with
  | zero => intro must st hfuel; exact absurd hfuel (by omega)
  | succ n ih =>
      intro must st hfuel
      unfold digits_checked_run
      split
      · next hnum =>
        obtain ⟨c, hcc, hcn⟩ := is_num_char_inv hnum
        obtain ⟨hg, hlt⟩ := current_char_some hcc
        have hdrop := drop_cons_of_get hg
        have hpos1 : (consume_char ctx st).sourcePos = st.sourcePos + 1 :=
          consume_char_sourcePos hlt
        split
        · next hbad =>
          rw [Bool.and_eq_true, Bool.not_eq_true'] at hbad
          obtain ⟨hmust, hm0⟩ := hbad
          have hcne : c ≠ '0' := by
            intro hceq
            rw [hceq] at hg
            rw [(match_str_single_iff hlt '0').mpr hg] at hm0
            exact Bool.noConfusion hm0
          constructor
          · intro _
            refine ⟨hmust, c, ?_, hcne⟩
            rw [hdrop, List.takeWhile_cons, hcn]
            simp
          · intro _; rfl
        · next hok =>
          have ih2 := ih must (consume_char ctx st) (by rw [hpos1]; omega)
          rw [hpos1] at ih2
          rw [ih2, hdrop, List.takeWhile_cons, hcn]
          simp only [if_true]
          constructor
          · rintro ⟨hmust, d, hd, hdne⟩
            exact ⟨hmust, d, List.mem_cons_of_mem _ hd, hdne⟩
          · rintro ⟨hmust, d, hd, hdne⟩
            refine ⟨hmust, ?_⟩
            rcases List.mem_cons.mp hd with rfl | hd2
            · exfalso
              rw [hmust] at hok
              have hm1 : match_str ctx st ['0'] = true := by
                cases hcase : match_str ctx st ['0'] with
                | true => rfl
                | false => rw [hcase] at hok; exact absurd rfl hok
              have := match_str_single hm1
              rw [hg] at this
              injection this with this
              exact hdne this
            · exact ⟨d, hd2, hdne⟩
      · next hnotnum =>
        rw [takeWhile_nil_of_not_num (Bool.eq_false_iff.mpr hnotnum)]
        simp

theorem get_some_iff {l : List Char} {p : Nat} {c : Char} (hg : l.get? p = some c)
    (d : Char) : (l.get? p = some d) ↔ c = d := by
  rw [hg]
  constructor
  · intro h; injection h
  · intro h; rw [h]

/-- C6 as amended: for every source text whose next token is a numeric
literal starting with a digit, next_token raises the leading-zero
scanner error exactly when the literal starts with 0 and its maximal
digit run contains a nonzero digit; an all-zero digit run raises
nothing. -/
theorem c6_amended_leading_zero_error_iff (c : Char) (rest : List Char)
    (hd : isNumChar c = true) :
    (next_token ⟨c :: rest, true⟩ initState = .error .leadingZeros ↔
      c = '0' ∧ ∃ d ∈ (c :: rest).takeWhile isNumChar, d ≠ '0') := by
  have hg : (⟨c :: rest, true⟩ : ScanCtx).source.get? initState.sourcePos = some c := rfl
  have hlt : initState.sourcePos < (⟨c :: rest, true⟩ : ScanCtx).source.length := by
    simp [initState]
  have hsk : is_skippable ⟨c :: rest, true⟩ initState = false := by
    unfold is_skippable
    rw [current_char_of_get hg]
    exact numChar_not_skippable hd
  have hnum : is_num_char ⟨c :: rest, true⟩ initState = true := by
    unfold is_num_char
    rw [current_char_of_get hg]
    exact hd
  have hpos1 : (consume_char ⟨c :: rest, true⟩ initState).sourcePos = 1 := by
    rw [consume_char_sourcePos hlt]
    rfl
  have hfuel : (⟨c :: rest, true⟩ : ScanCtx).source.length -
      (consume_char ⟨c :: rest, true⟩ initState).sourcePos <
        fuelOf ⟨c :: rest, true⟩ := by
    simp only [fuelOf]
    omega
  have hiff := digits_checked_iff (fuelOf ⟨c :: rest, true⟩)
    (match_str ⟨c :: rest, true⟩ initState ['0'])
    (consume_char ⟨c :: rest, true⟩ initState) hfuel
  rw [hpos1] at hiff
  have hdrop1 : (⟨c :: rest, true⟩ : ScanCtx).source.drop 1 = rest := rfl
  rw [hdrop1] at hiff
  have hm0 := (match_str_single_iff hlt '0').trans (get_some_iff hg '0')
  have htw : (c :: rest).takeWhile isNumChar = c :: rest.takeWhile isNumChar := by
    rw [List.takeWhile_cons, hd]
    simp
  unfold next_token
  dsimp only []
  rw [hsk]
  simp only [Bool.false_eq_true, if_false]
  unfold scan_after_skippables
  dsimp only []
  rw [hnum]
  simp only [if_true]
  constructor
  · intro hL
    cases hdc : digits_checked_run ⟨c :: rest, true⟩ (fuelOf ⟨c :: rest, true⟩)
        (match_str ⟨c :: rest, true⟩ initState ['0'])
        (consume_char ⟨c :: rest, true⟩ initState) with
    | error e =>
        rw [hdc] at hL
        injection hL with he
        subst he
        obtain ⟨hm, d, hdm, hdne⟩ := hiff.mp hdc
        refine ⟨hm0.mp hm, d, ?_, hdne⟩
        rw [htw]
        exact List.mem_cons_of_mem _ hdm
    | ok st2 =>
        rw [hdc] at hL
        dsimp only [] at hL
        split at hL <;> split at hL <;> exact Except.noConfusion hL
  · rintro ⟨hc0, d, hdm, hdne⟩
    rw [htw] at hdm
    rcases List.mem_cons.mp hdm with rfl | hdm2
    · exact absurd hc0 hdne
    · rw [hiff.mpr ⟨hm0.mpr hc0, d, hdm2, hdne⟩]

/-- Witness for the amended C6 theorem at the concrete source 010. -/
theorem c6_amended_witness :
    isNumChar '0' = true ∧
    next_token ⟨['0', '1', '0'], true⟩ initState = .error .leadingZeros :=
  ⟨by decide,
   (c6_amended_leading_zero_error_iff '0' ['1', '0'] (by decide)).mpr
     ⟨rfl, '1', by decide, by decide⟩⟩

end QuarkScanner
end Quark

